import Mathlib

/-!
Verification development for the syslog format classifier
(`syslog-detect-format.py`).

The Python source compiles two anchored regular expressions
(`RFC3164_PATTERN`, `RFC5424_PATTERN`), a detector `detect_syslog_format`
returning `(format name, raw timestamp, parsed timestamp)`, a first-line
analyzer `analyze_syslog_file`, and a two-branch CLI entry point.

The embedding below translates each regex into a deterministic parser over
`List Char`.  Each regex here is free of essential backtracking: every
greedy sub-pattern (`\d+`, `[\w.-]+`, `\d{1,6}`, `\d{1,2}`) is followed by a
character that cannot belong to the repeated class, so the maximal run is
the only candidate, and the one lazy sub-pattern (`\[.*?\]`) is handled by
an explicit scan over all candidate closing brackets.  The optional PRI
groups are translated with an explicit `orElse` mirroring the regex's
empty-alternative backtracking.  Character classes `\w`, `\d` and the
whitespace set are modelled over their ASCII fragments (the Python `re`
module would additionally accept non-ASCII word and digit characters); all
inputs exercised by the specification are ASCII.

`datetime.strptime` with the two fixed format strings is modelled by
`strptime5424` / `strptime3164`: field extraction following CPython's
`_strptime` field regexes (1-2 digit numeric fields, case-insensitive
3-letter month abbreviations, exact-width year, 1-6 digit fractions,
mandatory full consumption of the input), followed by the range checks of
the `datetime` constructor (month 1-12 guaranteed by the field pattern,
day within the month's length, hour below 24, minute and second below 60,
positive year).  The `%d` alternative that accepts a space-padded day and
the `\s+` flexibility of whitespace in the format string are omitted: both
are unreachable for the timestamp substrings captured by the two regexes,
which contain single spaces and digit-initial day fields only.
-/

namespace LogOps

/-- Naive calendar datetime as produced by Python `datetime.datetime`
(no timezone attached; `strptime` with the formats used here never sets
one). -/
structure DateTime where
  year : Nat
  month : Nat
  day : Nat
  hour : Nat
  minute : Nat
  second : Nat
  microsecond : Nat
deriving Repr, DecidableEq

/-- ASCII fragment of the regex class `\w`. -/
def isWordC (c : Char) : Bool := c.isAlpha || c.isDigit || c == '_'

/-- ASCII fragment of the regex class `[\w.-]` (hostname / app-name
characters). -/
def isHostC (c : Char) : Bool := isWordC c || c == '.' || c == '-'

/-- Consume exactly `n` digits (`\d{n}`), returning them and the rest. -/
def chompDigits : Nat → List Char → Option (List Char × List Char)
  | 0, cs => some ([], cs)
  | _ + 1, [] => none
  | n + 1, c :: cs =>
      if c.isDigit then (chompDigits n cs).map (fun p => (c :: p.1, p.2)) else none

/-- Consume one fixed literal character. -/
def chompChar (a : Char) : List Char → Option (List Char)
  | [] => none
  | c :: cs => if c = a then some cs else none

/-- `(<\d+>\d )?` — the optional PRI+VERSION prefix of `RFC5424_PATTERN`.
The `\d+` is maximal (it is followed by `>`). -/
def pri5424 (cs : List Char) : Option (List Char) :=
  match cs with
  | c :: t =>
      if c = '<' then
        let ds := t.takeWhile Char.isDigit
        match t.dropWhile Char.isDigit with
        | g :: d :: sp :: r =>
            if g = '>' ∧ sp = ' ' ∧ ds ≠ [] ∧ d.isDigit then some r else none
        | _ => none
      else none
  | [] => none

/-- `(<\d+>)?` — the optional PRI prefix of `RFC3164_PATTERN`. -/
def pri3164 (cs : List Char) : Option (List Char) :=
  match cs with
  | c :: t =>
      if c = '<' then
        let ds := t.takeWhile Char.isDigit
        match t.dropWhile Char.isDigit with
        | g :: r => if g = '>' ∧ ds ≠ [] then some r else none
        | [] => none
      else none
  | [] => none

/-- `\d{4}-\d{2}-\d{2}T` — the date part of the RFC 5424 timestamp. -/
def date5424 (cs : List Char) : Option (List Char × List Char × List Char × List Char) := do
  let (ys, r1) ← chompDigits 4 cs
  let r2 ← chompChar '-' r1
  let (mos, r3) ← chompDigits 2 r2
  let r4 ← chompChar '-' r3
  let (das, r5) ← chompDigits 2 r4
  let r6 ← chompChar 'T' r5
  some (ys, mos, das, r6)

/-- `\d{2}:\d{2}:\d{2}` — an hour-minute-second group, digits kept raw. -/
def hms (cs : List Char) : Option (List Char × List Char × List Char × List Char) := do
  let (hs, r1) ← chompDigits 2 cs
  let r2 ← chompChar ':' r1
  let (mis, r3) ← chompDigits 2 r2
  let r4 ← chompChar ':' r3
  let (ss, r5) ← chompDigits 2 r4
  some (hs, mis, ss, r5)

/-- `\d{1,6}Z` — the fractional-second part of the RFC 5424 timestamp.
The fraction `\d{1,6}` is maximal (it is followed by the non-digit `Z`),
so the maximal digit run constrained to length 1-6 is faithful. -/
def frac5424 (cs : List Char) : Option (List Char × List Char) :=
  let fs := cs.takeWhile Char.isDigit
  match cs.dropWhile Char.isDigit with
  | z :: r => if z = 'Z' ∧ 1 ≤ fs.length ∧ fs.length ≤ 6 then some (fs, r) else none
  | [] => none

/-- `(?P<timestamp>\d{4}-\d{2}-\d{2}T\d{2}:\d{2}:\d{2}\.\d{1,6}Z)`:
returns the captured timestamp characters and the rest of the line. -/
def ts5424 (cs : List Char) : Option (List Char × List Char) := do
  let (ys, mos, das, r1) ← date5424 cs
  let (hs, mis, ss, r2) ← hms r1
  let r3 ← chompChar '.' r2
  let (fs, r4) ← frac5424 r3
  some (ys ++ '-' :: mos ++ '-' :: das ++ 'T' :: hs ++ ':' :: mis
           ++ ':' :: ss ++ '.' :: fs ++ ['Z'], r4)

/-- `(p+) ` — a maximal nonempty run of class characters followed by a
space (the class never contains the space, so the maximal run is the only
candidate). -/
def classRun (p : Char → Bool) (cs : List Char) : Option (List Char) :=
  let t := cs.takeWhile p
  match cs.dropWhile p with
  | x :: r => if x = ' ' ∧ t ≠ [] then some r else none
  | [] => none

/-- `(.+)$` — at least one character, none of them a newline; `$` also
matches just before one newline at the very end of the input. -/
def msgOk (cs : List Char) : Bool :=
  let core := if cs.getLast? = some '\n' then cs.dropLast else cs
  !core.isEmpty && core.all (fun c => c != '\n')

/-- Scan for `\]` completing `\[.*?\]` followed by `' ' (.+)$`; the lazy
`.*?` (which cannot cross a newline) makes the overall match succeed
exactly when some closing bracket admits a valid continuation. -/
def sdScan : List Char → Bool
  | [] => false
  | ']' :: ' ' :: r => msgOk r || sdScan (' ' :: r)
  | ']' :: r => sdScan r
  | c :: r => c != '\n' && sdScan r

/-- `(\[.*?\]|-) (.+)$` — the STRUCTURED-DATA field and message tail. -/
def sdMsg : List Char → Bool
  | '[' :: r => sdScan r
  | '-' :: ' ' :: r => msgOk r
  | _ => false

/-- Everything of `RFC5424_PATTERN` after the optional PRI group:
`TIMESTAMP HOST APP PROCID (SD|-) MSG`, returning the timestamp capture. -/
def rest5424 (cs : List Char) : Option (List Char) := do
  let (ts, r1) ← ts5424 cs
  let r2 ← chompChar ' ' r1
  let r3 ← classRun isHostC r2
  let r4 ← classRun isHostC r3
  let r5 ← classRun Char.isDigit r4
  if sdMsg r5 then some ts else none

/-- `RFC5424_PATTERN.match(line)`: the timestamp capture if the whole
pattern matches.  If the PRI alternative matches but the remainder fails,
the regex engine retries with the empty alternative; `orElse` mirrors
that. -/
def m5424 (cs : List Char) : Option (List Char) :=
  match pri5424 cs with
  | some r => (rest5424 r).orElse (fun _ => rest5424 cs)
  | none => rest5424 cs

/-- `(?P<timestamp>\w{3} \d{1,2} \d{2}:\d{2}:\d{2})` of `RFC3164_PATTERN`:
returns the captured timestamp characters and the rest.  The day
`\d{1,2}` is followed by a space, so the maximal digit run constrained to
length 1-2 is faithful. -/
def ts3164 (cs : List Char) : Option (List Char × List Char) :=
  match cs with
  | c0 :: c1 :: c2 :: c3 :: r =>
      if c3 = ' ' ∧ isWordC c0 ∧ isWordC c1 ∧ isWordC c2 then
        let ds := r.takeWhile Char.isDigit
        match r.dropWhile Char.isDigit with
        | x :: r2 =>
            if x = ' ' ∧ 1 ≤ ds.length ∧ ds.length ≤ 2 then
              (hms r2).map fun q =>
                (c0 :: c1 :: c2 :: ' ' :: ds ++ ' ' :: q.1 ++ ':' :: q.2.1
                    ++ ':' :: q.2.2.1, q.2.2.2)
            else none
        | [] => none
      else none
  | _ => none

/-- Everything of `RFC3164_PATTERN` after the optional PRI group:
`TIMESTAMP HOST MSG`, returning the timestamp capture. -/
def rest3164 (cs : List Char) : Option (List Char) := do
  let (ts, r1) ← ts3164 cs
  let r2 ← chompChar ' ' r1
  let r3 ← classRun isHostC r2
  if msgOk r3 then some ts else none

/-- `RFC3164_PATTERN.match(line)`: the timestamp capture if the whole
pattern matches. -/
def m3164 (cs : List Char) : Option (List Char) :=
  match pri3164 cs with
  | some r => (rest3164 r).orElse (fun _ => rest3164 cs)
  | none => rest3164 cs

/-! ### The `strptime` models -/

def digitVal (c : Char) : Nat := c.toNat - '0'.toNat

def natOfDigits (ds : List Char) : Nat := ds.foldl (fun a c => a * 10 + digitVal c) 0

/-- A 1- or 2-digit numeric `strptime` field (`%m`, `%d`, `%H`, `%M`,
`%S`): two digits are consumed when available, otherwise one.  In every
format used here the field is followed by a non-digit literal, so this
agrees with CPython's alternation patterns once combined with the range
checks performed afterwards. -/
def num2 : List Char → Option (Nat × List Char)
  | c1 :: c2 :: r =>
      if c1.isDigit then
        if c2.isDigit then some (digitVal c1 * 10 + digitVal c2, r)
        else some (digitVal c1, c2 :: r)
      else none
  | [c1] => if c1.isDigit then some (digitVal c1, []) else none
  | [] => none

/-- `%b`: case-insensitive 3-letter English month abbreviation. -/
def monthAbbr (a b c : Char) : Option Nat :=
  match a.toLower, b.toLower, c.toLower with
  | 'j', 'a', 'n' => some 1
  | 'f', 'e', 'b' => some 2
  | 'm', 'a', 'r' => some 3
  | 'a', 'p', 'r' => some 4
  | 'm', 'a', 'y' => some 5
  | 'j', 'u', 'n' => some 6
  | 'j', 'u', 'l' => some 7
  | 'a', 'u', 'g' => some 8
  | 's', 'e', 'p' => some 9
  | 'o', 'c', 't' => some 10
  | 'n', 'o', 'v' => some 11
  | 'd', 'e', 'c' => some 12
  | _, _, _ => none

def isLeap (y : Nat) : Bool := (y % 4 == 0 && y % 100 != 0) || y % 400 == 0

def daysInMonth (y m : Nat) : Nat :=
  if m = 2 then (if isLeap y then 29 else 28)
  else if m = 4 ∨ m = 6 ∨ m = 9 ∨ m = 11 then 30
  else 31

/-- `%Y-%m-%dT` — the date part of the 5424 `strptime` format. -/
def sdate5424 (cs : List Char) : Option (Nat × Nat × Nat × List Char) := do
  let (ys, r1) ← chompDigits 4 cs
  let r2 ← chompChar '-' r1
  let (mo, r3) ← num2 r2
  let r4 ← chompChar '-' r3
  let (da, r5) ← num2 r4
  let r6 ← chompChar 'T' r5
  some (natOfDigits ys, mo, da, r6)

/-- `%H:%M:%S` — the time fields shared by both `strptime` formats. -/
def stime (cs : List Char) : Option (Nat × Nat × Nat × List Char) := do
  let (ho, r1) ← num2 cs
  let r2 ← chompChar ':' r1
  let (mi, r3) ← num2 r2
  let r4 ← chompChar ':' r3
  let (se, r5) ← num2 r4
  some (ho, mi, se, r5)

/-- `datetime.strptime(s, "%Y-%m-%dT%H:%M:%S.%fZ")` on character lists:
field extraction, the "unconverted data remains" check, and the
`datetime` constructor's range checks.  The month field pattern only
admits values 1-12 and the day field values 1-31; these checks are folded
into the final condition together with the constructor's checks (they
reject exactly the same strings). -/
def strptime5424Core (cs : List Char) : Option DateTime := do
  let (y, mo, da, r1) ← sdate5424 cs
  let (ho, mi, se, r2) ← stime r1
  let r3 ← chompChar '.' r2
  let fs := r3.takeWhile Char.isDigit
  match r3.dropWhile Char.isDigit with
  | z :: r4 =>
      if z = 'Z' ∧ r4 = [] ∧ 1 ≤ fs.length ∧ fs.length ≤ 6 ∧ 1 ≤ y ∧ 1 ≤ mo
          ∧ mo ≤ 12 ∧ 1 ≤ da ∧ da ≤ daysInMonth y mo ∧ ho ≤ 23 ∧ mi ≤ 59
          ∧ se ≤ 59 then
        some ⟨y, mo, da, ho, mi, se, natOfDigits fs * 10 ^ (6 - fs.length)⟩
      else none
  | [] => none

/-- `datetime.strptime(s, "%b %d %H:%M:%S")`: no year in the text, so the
`strptime` default year 1900 is used, and the day range check of the
`datetime` constructor is taken against year 1900. -/
def strptime3164Core (cs : List Char) : Option DateTime :=
  match cs with
  | a :: b :: c :: r =>
      match monthAbbr a b c with
      | some mo => do
          let r1 ← chompChar ' ' r
          let (da, r2) ← num2 r1
          let r3 ← chompChar ' ' r2
          let (ho, mi, se, r4) ← stime r3
          if r4 = [] ∧ 1 ≤ da ∧ da ≤ daysInMonth 1900 mo ∧ ho ≤ 23 ∧ mi ≤ 59
              ∧ se ≤ 59 then
            some ⟨1900, mo, da, ho, mi, se, 0⟩
          else none
      | none => none
  | _ => none

def strptime5424 (s : String) : Option DateTime := strptime5424Core s.data

def strptime3164 (s : String) : Option DateTime := strptime3164Core s.data

/-! ### The detector, the analyzer and the CLI -/

def rfc5424Name : String := "RFC 5424 (Structured Data)"

def rfc3164Name : String := "RFC 3164 (Traditional Format)"

def unknownName : String := "Unknown Format"

/-- `detect_syslog_format(log_line)`: try `RFC5424_PATTERN` first, then
`RFC3164_PATTERN`; a `ValueError` from `strptime` is caught and turned
into an absent parsed timestamp (`Option.none` here). -/
def detect_syslog_format (line : String) : String × Option String × Option DateTime :=
  match m5424 line.data with
  | some ts => (rfc5424Name, some ⟨ts⟩, strptime5424 ⟨ts⟩)
  | none =>
      match m3164 line.data with
      | some ts => (rfc3164Name, some ⟨ts⟩, strptime3164 ⟨ts⟩)
      | none => (unknownName, none, none)

/-- ASCII fragment of the whitespace set stripped by Python `str.strip()`. -/
def isPySpace (c : Char) : Bool :=
  c == ' ' || c == '\t' || c == '\n' || c == '\x0d' || c == '\x0b' || c == '\x0c'

/-- Python `line.strip()` (ASCII whitespace fragment). -/
def pyStrip (s : String) : String :=
  ⟨((s.data.dropWhile isPySpace).reverse.dropWhile isPySpace).reverse⟩

/-- The classification stream of `analyze_syslog_file` on an opened file
(one entry per line, newline included when present in the file): each
line is `strip`ped, falsy (empty) lines are skipped, and the loop
`break`s after the first truthy line is classified. -/
def analyze_syslog_file : List String → List (String × Option String × Option DateTime)
  | [] => []
  | l :: ls =>
      if pyStrip l ≠ "" then [detect_syslog_format (pyStrip l)]
      else analyze_syslog_file ls

def pad (w : Nat) (n : Nat) : String :=
  let s := toString n
  ⟨List.replicate (w - s.length) '0' ++ s.data⟩

/-- Python `str(datetime(...))` (microseconds omitted when zero). -/
def pyDatetimeStr (dt : DateTime) : String :=
  pad 4 dt.year ++ "-" ++ pad 2 dt.month ++ "-" ++ pad 2 dt.day ++ " "
    ++ pad 2 dt.hour ++ ":" ++ pad 2 dt.minute ++ ":" ++ pad 2 dt.second
    ++ (if dt.microsecond = 0 then "" else "." ++ pad 6 dt.microsecond)

/-- The lines printed for one classified (already stripped) line. -/
def linePrinted (line : String) : List String :=
  let r := detect_syslog_format line
  ("Detected: " ++ r.1 ++ " -> " ++ line) ::
    match r.2.1 with
    | some ts =>
        if ts ≠ "" then
          ["Extracted Timestamp: " ++ ts,
           "Parsed Timestamp: "
             ++ (match r.2.2 with | some dt => pyDatetimeStr dt | none => "None")]
        else []
    | none => []

/-- Standard-output lines of `analyze_syslog_file` on a successfully
opened file. -/
def analyzePrinted : List String → List String
  | [] => []
  | l :: ls => if pyStrip l ≠ "" then linePrinted (pyStrip l) else analyzePrinted ls

/-- Observable outcome of one CLI invocation. -/
structure CliResult where
  exitCode : Nat
  stdoutLines : List String
  stderrLines : List String
  ioAttempted : Bool
deriving Repr, DecidableEq

def usageMsg : String := "Usage: python detect_syslog_format.py <syslog_file>"

/-- The `__main__` block: `argv` includes the program name
(`len(sys.argv) != 2` means a wrong argument count).  The file system is
abstracted as a function from paths to either the file's lines or the
text of the raised `OSError`; `analyze_syslog_file` catches that error,
prints `Error reading file: ...` (via `print`, hence to standard output)
and returns normally, so the process then exits with code 0.  Nothing in
the program ever writes to the error stream. -/
def mainCli (argv : List String) (fileSystem : String → Except String (List String)) :
    CliResult :=
  if argv.length ≠ 2 then ⟨1, [usageMsg], [], false⟩
  else
    match fileSystem (argv.getD 1 "") with
    | .error e => ⟨0, ["Error reading file: " ++ e], [], true⟩
    | .ok lines => ⟨0, analyzePrinted lines, [], true⟩

/-! ### Lemmas about the parsing combinators -/

theorem chompDigits_some : ∀ {n : Nat} {cs ds r : List Char},
    chompDigits n cs = some (ds, r) →
    cs = ds ++ r ∧ ds.length = n ∧ ∀ c ∈ ds, c.isDigit = true := by
  intro n
  induction n with
  | zero =>
      intro cs ds r h
      simp only [chompDigits, Option.some.injEq, Prod.mk.injEq] at h
      obtain ⟨h1, h2⟩ := h
      subst h1; subst h2
      simp
  | succ n ih =>
      intro cs ds r h
      match cs with
      | [] => simp [chompDigits] at h
      | c :: cs' =>
          rw [chompDigits] at h
          by_cases hd : c.isDigit
          · simp only [hd, if_true, Option.map_eq_some'] at h
            obtain ⟨⟨ds', r'⟩, h1, h2⟩ := h
            simp only [Prod.mk.injEq] at h2
            obtain ⟨h2, h3⟩ := h2
            subst h2; subst h3
            obtain ⟨hcs, hlen, hdig⟩ := ih h1
            subst hcs
            refine ⟨rfl, by simp [hlen], ?_⟩
            intro x hx
            rcases List.mem_cons.mp hx with hx | hx
            · subst hx; exact hd
            · exact hdig x hx
          · simp [hd] at h

theorem chompDigits_append {ds : List Char} (r : List Char)
    (hd : ∀ c ∈ ds, c.isDigit = true) :
    chompDigits ds.length (ds ++ r) = some (ds, r) := by
  induction ds with
  | nil => simp [chompDigits]
  | cons c ds ih =>
      have h1 : c.isDigit = true := hd c (List.mem_cons_self c ds)
      have h2 := ih (fun x hx => hd x (List.mem_cons_of_mem c hx))
      simp [chompDigits, h1, h2]

theorem chompChar_eq_some {a : Char} {cs r : List Char} :
    chompChar a cs = some r ↔ cs = a :: r := by
  match cs with
  | [] => simp [chompChar]
  | c :: cs' =>
      by_cases h : c = a
      · subst h; simp [chompChar]
      · simp [chompChar, h]

theorem num2_two {a b : Char} {r : List Char} (ha : a.isDigit = true)
    (hb : b.isDigit = true) :
    num2 (a :: b :: r) = some (digitVal a * 10 + digitVal b, r) := by
  simp [num2, ha, hb]

theorem num2_one {a b : Char} {r : List Char} (ha : a.isDigit = true)
    (hb : b.isDigit = false) :
    num2 (a :: b :: r) = some (digitVal a, b :: r) := by
  simp [num2, ha, hb]

theorem span_exact {p : Char → Bool} {l : List Char} {x : Char} (r : List Char)
    (hl : ∀ c ∈ l, p c = true) (hx : p x = false) :
    (l ++ x :: r).takeWhile p = l ∧ (l ++ x :: r).dropWhile p = x :: r := by
  constructor
  · rw [List.takeWhile_append_of_pos hl, List.takeWhile_cons_of_neg (by simp [hx])]
    simp
  · rw [List.dropWhile_append_of_pos hl, List.dropWhile_cons_of_neg (by simp [hx])]

theorem dropWhile_head_false {p : Char → Bool} {cs r : List Char} {x : Char}
    (h : cs.dropWhile p = x :: r) : p x = false := by
  induction cs with
  | nil => simp at h
  | cons c cs ih =>
      rw [List.dropWhile_cons] at h
      by_cases hc : p c
      · rw [if_pos hc] at h
        exact ih h
      · rw [if_neg hc] at h
        injection h with h1 _
        subst h1
        simpa using hc

theorem dropWhile_decompose {p : Char → Bool} {cs r : List Char} {x : Char}
    (h : cs.dropWhile p = x :: r) :
    cs = cs.takeWhile p ++ x :: r ∧ (∀ c ∈ cs.takeWhile p, p c = true)
      ∧ p x = false := by
  refine ⟨?_, fun c hc => List.mem_takeWhile_imp hc, dropWhile_head_false h⟩
  conv_lhs => rw [← List.takeWhile_append_dropWhile (p := p) (l := cs)]
  rw [h]

theorem list_len2 {l : List Char} (h : l.length = 2) : ∃ a b, l = [a, b] := by
  match l, h with
  | [a, b], _ => exact ⟨a, b, rfl⟩

theorem list_len4 {l : List Char} (h : l.length = 4) : ∃ a b c d, l = [a, b, c, d] := by
  match l, h with
  | [a, b, c, d], _ => exact ⟨a, b, c, d, rfl⟩

theorem orElse_eq_some {α : Type} {a : Option α} {b : Unit → Option α} {v : α}
    (h : a.orElse b = some v) : a = some v ∨ (a = none ∧ b () = some v) := by
  cases a with
  | none => exact Or.inr ⟨rfl, by simpa [Option.orElse] using h⟩
  | some x => exact Or.inl (by simpa [Option.orElse] using h)

/-! ### Inversion of the matchers -/

theorem date5424_some {cs ys mos das r : List Char}
    (h : date5424 cs = some (ys, mos, das, r)) :
    cs = ys ++ '-' :: mos ++ '-' :: das ++ 'T' :: r ∧
      ys.length = 4 ∧ mos.length = 2 ∧ das.length = 2 ∧
      (∀ c ∈ ys, c.isDigit = true) ∧ (∀ c ∈ mos, c.isDigit = true) ∧
      (∀ c ∈ das, c.isDigit = true) := by
  simp only [date5424, Option.bind_eq_bind, Option.bind_eq_some] at h
  obtain ⟨⟨ys1, r1⟩, h1, h⟩ := h
  obtain ⟨r2, h2, h⟩ := h
  obtain ⟨⟨mos1, r3⟩, h3, h⟩ := h
  obtain ⟨r4, h4, h⟩ := h
  obtain ⟨⟨das1, r5⟩, h5, h⟩ := h
  obtain ⟨r6, h6, h⟩ := h
  simp only [Option.some.injEq, Prod.mk.injEq] at h
  obtain ⟨hy, hm, hd, hr⟩ := h
  subst hy; subst hm; subst hd; subst hr
  obtain ⟨e1, l1, d1⟩ := chompDigits_some h1
  rw [chompChar_eq_some] at h2
  obtain ⟨e3, l3, d3⟩ := chompDigits_some h3
  rw [chompChar_eq_some] at h4
  obtain ⟨e5, l5, d5⟩ := chompDigits_some h5
  rw [chompChar_eq_some] at h6
  subst e1; subst h2; subst e3; subst h4; subst e5; subst h6
  exact ⟨by simp, l1, l3, l5, d1, d3, d5⟩

theorem hms_some {cs hs mis ss r : List Char}
    (h : hms cs = some (hs, mis, ss, r)) :
    cs = hs ++ ':' :: mis ++ ':' :: ss ++ r ∧
      hs.length = 2 ∧ mis.length = 2 ∧ ss.length = 2 ∧
      (∀ c ∈ hs, c.isDigit = true) ∧ (∀ c ∈ mis, c.isDigit = true) ∧
      (∀ c ∈ ss, c.isDigit = true) := by
  simp only [hms, Option.bind_eq_bind, Option.bind_eq_some] at h
  obtain ⟨⟨hs1, r1⟩, h1, h⟩ := h
  obtain ⟨r2, h2, h⟩ := h
  obtain ⟨⟨mis1, r3⟩, h3, h⟩ := h
  obtain ⟨r4, h4, h⟩ := h
  obtain ⟨⟨ss1, r5⟩, h5, h⟩ := h
  simp only [Option.some.injEq, Prod.mk.injEq] at h
  obtain ⟨hh, hm, hs2, hr⟩ := h
  subst hh; subst hm; subst hs2; subst hr
  obtain ⟨e1, l1, d1⟩ := chompDigits_some h1
  rw [chompChar_eq_some] at h2
  obtain ⟨e3, l3, d3⟩ := chompDigits_some h3
  rw [chompChar_eq_some] at h4
  obtain ⟨e5, l5, d5⟩ := chompDigits_some h5
  subst e1; subst h2; subst e3; subst h4; subst e5
  exact ⟨by simp, l1, l3, l5, d1, d3, d5⟩

theorem frac5424_some {cs fs r : List Char}
    (h : frac5424 cs = some (fs, r)) :
    cs = fs ++ 'Z' :: r ∧ 1 ≤ fs.length ∧ fs.length ≤ 6 ∧
      ∀ c ∈ fs, c.isDigit = true := by
  simp only [frac5424] at h
  split at h
  · rename_i z r1 heq
    split at h
    · rename_i hcond
      obtain ⟨hz, hf1, hf6⟩ := hcond
      subst hz
      simp only [Option.some.injEq, Prod.mk.injEq] at h
      obtain ⟨hfs, hr⟩ := h
      obtain ⟨he, htw, _⟩ := dropWhile_decompose heq
      subst hfs; subst hr
      exact ⟨he, hf1, hf6, htw⟩
    · exact absurd h (by simp)
  · exact absurd h (by simp)

theorem ts5424_some {cs ts r : List Char} (h : ts5424 cs = some (ts, r)) :
    ∃ ys mos das hs mis ss fs,
      ts = ys ++ '-' :: mos ++ '-' :: das ++ 'T' :: hs ++ ':' :: mis
              ++ ':' :: ss ++ '.' :: fs ++ ['Z'] ∧
      cs = ts ++ r ∧
      ys.length = 4 ∧ mos.length = 2 ∧ das.length = 2 ∧ hs.length = 2 ∧
      mis.length = 2 ∧ ss.length = 2 ∧ 1 ≤ fs.length ∧ fs.length ≤ 6 ∧
      (∀ c ∈ ys, c.isDigit = true) ∧ (∀ c ∈ mos, c.isDigit = true) ∧
      (∀ c ∈ das, c.isDigit = true) ∧ (∀ c ∈ hs, c.isDigit = true) ∧
      (∀ c ∈ mis, c.isDigit = true) ∧ (∀ c ∈ ss, c.isDigit = true) ∧
      (∀ c ∈ fs, c.isDigit = true) := by
  simp only [ts5424, Option.bind_eq_bind, Option.bind_eq_some] at h
  obtain ⟨⟨ys, mos, das, r1⟩, h1, h⟩ := h
  obtain ⟨⟨hs, mis, ss, r2⟩, h2, h⟩ := h
  obtain ⟨r3, h3, h⟩ := h
  obtain ⟨⟨fs, r4⟩, h4, h⟩ := h
  simp only [Option.some.injEq, Prod.mk.injEq] at h
  obtain ⟨hts, hr⟩ := h
  subst hts; subst hr
  obtain ⟨e1, ly, lm, ld, dy, dm, dd⟩ := date5424_some h1
  obtain ⟨e2, lh, lmi, ls, dh, dmi, ds⟩ := hms_some h2
  rw [chompChar_eq_some] at h3
  obtain ⟨e4, f1, f6, df⟩ := frac5424_some h4
  refine ⟨ys, mos, das, hs, mis, ss, fs, rfl, ?_, ly, lm, ld, lh, lmi, ls,
    f1, f6, dy, dm, dd, dh, dmi, ds, df⟩
  subst e1; subst e2; subst h3; subst e4
  simp

theorem rest5424_ts {cs ts : List Char} (h : rest5424 cs = some ts) :
    ∃ r, ts5424 cs = some (ts, r) := by
  simp only [rest5424, Option.bind_eq_bind, Option.bind_eq_some] at h
  obtain ⟨⟨ts1, r1⟩, h1, h⟩ := h
  obtain ⟨r2, _, h⟩ := h
  obtain ⟨r3, _, h⟩ := h
  obtain ⟨r4, _, h⟩ := h
  obtain ⟨r5, _, h⟩ := h
  split at h
  · simp only [Option.some.injEq] at h
    subst h
    exact ⟨r1, h1⟩
  · exact absurd h (by simp)

theorem ts3164_some {cs ts r : List Char} (h : ts3164 cs = some (ts, r)) :
    ∃ c0 c1 c2 ds hs mis ss r2,
      cs = c0 :: c1 :: c2 :: ' ' :: (ds ++ ' ' :: r2) ∧
      ts = c0 :: c1 :: c2 :: ' ' :: ds ++ ' ' :: hs ++ ':' :: mis ++ ':' :: ss ∧
      r2 = hs ++ ':' :: mis ++ ':' :: ss ++ r ∧
      isWordC c0 = true ∧ isWordC c1 = true ∧ isWordC c2 = true ∧
      1 ≤ ds.length ∧ ds.length ≤ 2 ∧ (∀ c ∈ ds, c.isDigit = true) ∧
      hs.length = 2 ∧ mis.length = 2 ∧ ss.length = 2 ∧
      (∀ c ∈ hs, c.isDigit = true) ∧ (∀ c ∈ mis, c.isDigit = true) ∧
      (∀ c ∈ ss, c.isDigit = true) := by
  rcases cs with _ | ⟨c0, _ | ⟨c1, _ | ⟨c2, _ | ⟨c3, rr⟩⟩⟩⟩
  · exact absurd h (by simp [ts3164])
  · exact absurd h (by simp [ts3164])
  · exact absurd h (by simp [ts3164])
  · exact absurd h (by simp [ts3164])
  · rw [ts3164] at h
    split at h
    · rename_i hcond
      obtain ⟨h3, hw0, hw1, hw2⟩ := hcond
      subst h3
      split at h
      · rename_i x r2 heq
        dsimp only [] at h
        split at h
        · rename_i hcond2
          obtain ⟨hx, hd1, hd2⟩ := hcond2
          subst hx
          simp only [Option.map_eq_some'] at h
          obtain ⟨⟨hs, mis, ss, r7⟩, hq, h⟩ := h
          simp only [Prod.mk.injEq] at h
          obtain ⟨hts, hr⟩ := h
          subst hts; subst hr
          obtain ⟨e2, lh, lmi, ls, dh, dmi, ds⟩ := hms_some hq
          obtain ⟨he, htw, _⟩ := dropWhile_decompose heq
          exact ⟨c0, c1, c2, rr.takeWhile Char.isDigit, hs, mis, ss, r2,
            by rw [← he], rfl, e2, hw0, hw1, hw2, hd1, hd2, htw,
            lh, lmi, ls, dh, dmi, ds⟩
        · exact absurd h (by simp)
      · exact absurd h (by simp)
    · exact absurd h (by simp)

theorem rest3164_ts {cs ts : List Char} (h : rest3164 cs = some ts) :
    ∃ r, ts3164 cs = some (ts, r) := by
  simp only [rest3164, Option.bind_eq_bind, Option.bind_eq_some] at h
  obtain ⟨⟨ts1, r1⟩, h1, h⟩ := h
  obtain ⟨r2, _, h⟩ := h
  obtain ⟨r3, _, h⟩ := h
  split at h
  · simp only [Option.some.injEq] at h
    subst h
    exact ⟨r1, h1⟩
  · exact absurd h (by simp)

theorem ts5424_first4 {cs ts r : List Char} (h : ts5424 cs = some (ts, r)) :
    ∃ a b c d rest, cs = a :: b :: c :: d :: rest ∧ a.isDigit = true ∧
      b.isDigit = true ∧ c.isDigit = true ∧ d.isDigit = true := by
  obtain ⟨ys, mos, das, hs, mis, ss, fs, hts, hcs, ly, _, _, _, _, _, _, _,
    dy, _⟩ := ts5424_some h
  obtain ⟨a, b, c, d, rfl⟩ := list_len4 ly
  subst hts
  refine ⟨a, b, c, d,
    '-' :: ((mos ++ '-' :: das ++ 'T' :: hs ++ ':' :: mis ++ ':' :: ss
        ++ '.' :: fs ++ ['Z']) ++ r), ?_,
    dy a (by simp), dy b (by simp), dy c (by simp), dy d (by simp)⟩
  rw [hcs]
  simp

theorem ts5424_none_sp {c0 c1 c2 : Char} {rest : List Char} :
    ts5424 (c0 :: c1 :: c2 :: ' ' :: rest) = none := by
  rcases hts : ts5424 (c0 :: c1 :: c2 :: ' ' :: rest) with _ | ⟨ts, r⟩
  · rfl
  · exfalso
    obtain ⟨a, b, c, d, rest1, he, _, _, _, hd⟩ := ts5424_first4 hts
    have hsp : (' ' : Char) = d := by
      simp only [List.cons.injEq] at he
      exact he.2.2.2.1
    rw [← hsp] at hd
    exact absurd hd (by decide)

theorem ts5424_none_lt {t : List Char} : ts5424 ('<' :: t) = none := by
  rcases hts : ts5424 ('<' :: t) with _ | ⟨ts, r⟩
  · rfl
  · exfalso
    obtain ⟨a, b, c, d, rest1, he, ha, _, _, _⟩ := ts5424_first4 hts
    have : ('<' : Char) = a := by
      simp only [List.cons.injEq] at he
      exact he.1
    rw [← this] at ha
    exact absurd ha (by decide)

theorem pri3164_some {cs r : List Char} (h : pri3164 cs = some r) :
    ∃ t, cs = '<' :: t ∧ t.dropWhile Char.isDigit = '>' :: r ∧
      t.takeWhile Char.isDigit ≠ [] := by
  rcases cs with _ | ⟨c, t⟩
  · exact absurd h (by simp [pri3164])
  · rw [pri3164] at h
    split at h
    · rename_i hc
      subst hc
      dsimp only [] at h
      split at h
      · rename_i g r1 heq
        split at h
        · rename_i hcond
          obtain ⟨hg, hne⟩ := hcond
          subst hg
          simp only [Option.some.injEq] at h
          subst h
          exact ⟨t, rfl, heq, hne⟩
        · exact absurd h (by simp)
      · exact absurd h (by simp)
    · exact absurd h (by simp)

theorem m5424_eq_rest {cs : List Char} (h : pri5424 cs = none) :
    m5424 cs = rest5424 cs := by
  rw [m5424, h]

theorem rest5424_none {cs : List Char} (h : ts5424 cs = none) :
    rest5424 cs = none := by
  simp [rest5424, h]

/-- The two grammars are disjoint: a line matched by `RFC3164_PATTERN`
is never matched by `RFC5424_PATTERN` (the fourth character after the
optional PRI is a space for 3164 and a digit for 5424, and the PRI shapes
are incompatible as well).  Hence `detect_syslog_format`'s preference for
RFC 5424 never masks an RFC 3164 line. -/
theorem m3164_m5424_none {cs ts : List Char} (h : m3164 cs = some ts) :
    m5424 cs = none := by
  rw [m3164] at h
  rcases hp : pri3164 cs with _ | r0
  · rw [hp] at h
    obtain ⟨r1, ht⟩ := rest3164_ts h
    obtain ⟨c0, c1, c2, ds, hs, mis, ss, r2, hcs, _, _, hw0, _⟩ := ts3164_some ht
    subst hcs
    have hc0 : c0 ≠ '<' := by
      intro hh
      rw [hh] at hw0
      exact absurd hw0 (by decide)
    have h1 : pri5424 (c0 :: c1 :: c2 :: ' ' :: (ds ++ ' ' :: r2)) = none := by
      simp [pri5424, hc0]
    rw [m5424_eq_rest h1]
    exact rest5424_none ts5424_none_sp
  · rw [hp] at h
    obtain ⟨t, hcs, hdw, hne⟩ := pri3164_some hp
    rcases orElse_eq_some h with h' | ⟨_, h'⟩
    · obtain ⟨r1, ht⟩ := rest3164_ts h'
      obtain ⟨c0, c1, c2, ds, hs, mis, ss, r2, hr, _, _, hw0, hw1, _⟩ :=
        ts3164_some ht
      subst hcs
      rw [hr] at hdw
      have hc1 : c1 ≠ ' ' := by
        intro hh
        rw [hh] at hw1
        exact absurd hw1 (by decide)
      have h1 : pri5424 ('<' :: t) = none := by
        simp [pri5424, hdw, hc1]
      rw [m5424_eq_rest h1]
      exact rest5424_none ts5424_none_lt
    · obtain ⟨r1, ht⟩ := rest3164_ts h'
      obtain ⟨c0, c1, c2, ds, hs, mis, ss, r2, hcse, _, _, hw0, _⟩ :=
        ts3164_some ht
      rw [hcs] at hcse
      have : '<' = c0 := by
        simp only [List.cons.injEq] at hcse
        exact hcse.1
      rw [← this] at hw0
      exact absurd hw0 (by decide)

theorem m5424_ts_shape {cs ts : List Char} (h : m5424 cs = some ts) :
    ∃ x r, ts5424 x = some (ts, r) := by
  rw [m5424] at h
  rcases hp : pri5424 cs with _ | r0
  · rw [hp] at h
    obtain ⟨r1, ht⟩ := rest5424_ts h
    exact ⟨cs, r1, ht⟩
  · rw [hp] at h
    rcases orElse_eq_some h with h' | ⟨_, h'⟩
    · obtain ⟨r1, ht⟩ := rest5424_ts h'
      exact ⟨r0, r1, ht⟩
    · obtain ⟨r1, ht⟩ := rest5424_ts h'
      exact ⟨cs, r1, ht⟩

theorem m3164_ts_shape {cs ts : List Char} (h : m3164 cs = some ts) :
    ∃ x r, ts3164 x = some (ts, r) := by
  rw [m3164] at h
  rcases hp : pri3164 cs with _ | r0
  · rw [hp] at h
    obtain ⟨r1, ht⟩ := rest3164_ts h
    exact ⟨cs, r1, ht⟩
  · rw [hp] at h
    rcases orElse_eq_some h with h' | ⟨_, h'⟩
    · obtain ⟨r1, ht⟩ := rest3164_ts h'
      exact ⟨r0, r1, ht⟩
    · obtain ⟨r1, ht⟩ := rest3164_ts h'
      exact ⟨cs, r1, ht⟩

/-! ### Forward evaluation of the combinators on shaped input -/

theorem natOfDigits_one (a : Char) : natOfDigits [a] = digitVal a := by
  simp [natOfDigits]

theorem natOfDigits_two (a b : Char) :
    natOfDigits [a, b] = digitVal a * 10 + digitVal b := by
  simp [natOfDigits]

theorem list_len1or2 {l : List Char} (h1 : 1 ≤ l.length) (h2 : l.length ≤ 2) :
    (∃ a, l = [a]) ∨ ∃ a b, l = [a, b] := by
  match l with
  | [] => simp at h1
  | [a] => exact Or.inl ⟨a, rfl⟩
  | [a, b] => exact Or.inr ⟨a, b, rfl⟩
  | a :: b :: c :: tl => simp at h2

theorem chompDigits_eval {ds : List Char} (n : Nat) (r : List Char)
    (hl : ds.length = n) (hd : ∀ c ∈ ds, c.isDigit = true) :
    chompDigits n (ds ++ r) = some (ds, r) := by
  rw [← hl]
  exact chompDigits_append r hd

theorem date5424_eval (rest : List Char) {ys mos das : List Char}
    (ly : ys.length = 4) (lm : mos.length = 2) (ld : das.length = 2)
    (dy : ∀ c ∈ ys, c.isDigit = true) (dm : ∀ c ∈ mos, c.isDigit = true)
    (dd : ∀ c ∈ das, c.isDigit = true) :
    date5424 (ys ++ '-' :: (mos ++ '-' :: (das ++ 'T' :: rest)))
      = some (ys, mos, das, rest) := by
  have h1 := chompDigits_eval 4 ('-' :: (mos ++ '-' :: (das ++ 'T' :: rest))) ly dy
  have h2 := chompDigits_eval 2 ('-' :: (das ++ 'T' :: rest)) lm dm
  have h3 := chompDigits_eval 2 ('T' :: rest) ld dd
  simp [date5424, h1, h2, h3, chompChar]

theorem hms_eval (rest : List Char) {hs mis ss : List Char}
    (lh : hs.length = 2) (lmi : mis.length = 2) (ls : ss.length = 2)
    (dh : ∀ c ∈ hs, c.isDigit = true) (dmi : ∀ c ∈ mis, c.isDigit = true)
    (ds : ∀ c ∈ ss, c.isDigit = true) :
    hms (hs ++ ':' :: (mis ++ ':' :: (ss ++ rest)))
      = some (hs, mis, ss, rest) := by
  have h1 := chompDigits_eval 2 (':' :: (mis ++ ':' :: (ss ++ rest))) lh dh
  have h2 := chompDigits_eval 2 (':' :: (ss ++ rest)) lmi dmi
  have h3 := chompDigits_eval 2 rest ls ds
  simp [hms, h1, h2, h3, chompChar]

theorem frac5424_eval (rest : List Char) {fs : List Char}
    (f1 : 1 ≤ fs.length) (f6 : fs.length ≤ 6)
    (df : ∀ c ∈ fs, c.isDigit = true) :
    frac5424 (fs ++ 'Z' :: rest) = some (fs, rest) := by
  obtain ⟨ht, hd⟩ := span_exact rest df (show Char.isDigit 'Z' = false by decide)
  simp [frac5424, ht, hd, f1, f6]

theorem sdate5424_eval (rest : List Char) {ys mos das : List Char}
    (ly : ys.length = 4) (lm : mos.length = 2) (ld : das.length = 2)
    (dy : ∀ c ∈ ys, c.isDigit = true) (dm : ∀ c ∈ mos, c.isDigit = true)
    (dd : ∀ c ∈ das, c.isDigit = true) :
    sdate5424 (ys ++ '-' :: (mos ++ '-' :: (das ++ 'T' :: rest)))
      = some (natOfDigits ys, natOfDigits mos, natOfDigits das, rest) := by
  obtain ⟨m1, m2, rfl⟩ := list_len2 lm
  obtain ⟨d1, d2, rfl⟩ := list_len2 ld
  have h1 := chompDigits_eval 4 ('-' :: m1 :: m2 :: '-' :: d1 :: d2 :: 'T' :: rest) ly dy
  have hm1 : m1.isDigit = true := dm m1 (by simp)
  have hm2 : m2.isDigit = true := dm m2 (by simp)
  have hd1 : d1.isDigit = true := dd d1 (by simp)
  have hd2 : d2.isDigit = true := dd d2 (by simp)
  simp [sdate5424, h1, chompChar, num2, hm1, hm2, hd1, hd2, natOfDigits_two]

theorem stime_eval (rest : List Char) {hs mis ss : List Char}
    (lh : hs.length = 2) (lmi : mis.length = 2) (ls : ss.length = 2)
    (dh : ∀ c ∈ hs, c.isDigit = true) (dmi : ∀ c ∈ mis, c.isDigit = true)
    (ds : ∀ c ∈ ss, c.isDigit = true) :
    stime (hs ++ ':' :: (mis ++ ':' :: (ss ++ rest)))
      = some (natOfDigits hs, natOfDigits mis, natOfDigits ss, rest) := by
  obtain ⟨h1, h2, rfl⟩ := list_len2 lh
  obtain ⟨n1, n2, rfl⟩ := list_len2 lmi
  obtain ⟨s1, s2, rfl⟩ := list_len2 ls
  have e1 : h1.isDigit = true := dh h1 (by simp)
  have e2 : h2.isDigit = true := dh h2 (by simp)
  have e3 : n1.isDigit = true := dmi n1 (by simp)
  have e4 : n2.isDigit = true := dmi n2 (by simp)
  have e5 : s1.isDigit = true := ds s1 (by simp)
  have e6 : s2.isDigit = true := ds s2 (by simp)
  simp [stime, num2, e1, e2, e3, e4, e5, e6, chompChar, natOfDigits_two]

/-! ### Spec-side decoders (refinement targets)

These two definitions follow the specification's words, not the code: the
instant or calendar fields *literally written* in a timestamp substring of
the declared layout.  They exist to be compared with the `strptime`
models. -/

/-- The UTC instant encoded by an RFC 5424 timestamp substring, read per
the spec's declared layout `YYYY-MM-DDThh:mm:ss.ffffffZ` (1-6 fraction
digits): the digit groups taken literally, the fraction padded to
microseconds.  Spec side of the refinement; it performs no range
re-validation beyond the layout's shape. -/
def specEncoded5424Core (cs : List Char) : Option DateTime := do
  let (ys, mos, das, r1) ← date5424 cs
  let (hs, mis, ss, r2) ← hms r1
  let r3 ← chompChar '.' r2
  let (fs, r4) ← frac5424 r3
  if r4 = [] then
    some ⟨natOfDigits ys, natOfDigits mos, natOfDigits das, natOfDigits hs,
      natOfDigits mis, natOfDigits ss, natOfDigits fs * 10 ^ (6 - fs.length)⟩
  else none

def specEncodedInstant5424 (s : String) : Option DateTime :=
  specEncoded5424Core s.data

/-- The calendar fields literally written in an RFC 3164 timestamp
substring of layout `Mon D hh:mm:ss` (3-letter month, 1-2 digit day,
two-digit hour, minute, second; the grammar has no year): month number,
day, hour, minute, second.  Spec side of the refinement. -/
def specFields3164Core (cs : List Char) : Option (Nat × Nat × Nat × Nat × Nat) :=
  match cs with
  | a :: b :: c :: ' ' :: r =>
      (monthAbbr a b c).bind fun mo =>
        let ds := r.takeWhile Char.isDigit
        if 1 ≤ ds.length ∧ ds.length ≤ 2 then
          match r.dropWhile Char.isDigit with
          | ' ' :: r2 =>
              (hms r2).bind fun q =>
                if q.2.2.2 = [] then
                  some (mo, natOfDigits ds, natOfDigits q.1, natOfDigits q.2.1,
                    natOfDigits q.2.2.1)
                else none
          | _ => none
        else none
  | _ => none

def specFields3164 (s : String) : Option (Nat × Nat × Nat × Nat × Nat) :=
  specFields3164Core s.data

/-! ### Agreement of the `strptime` models with the spec-side decoders -/

theorem strptime5424Core_eval {ys mos das hs mis ss fs : List Char}
    (ly : ys.length = 4) (lm : mos.length = 2) (ld : das.length = 2)
    (lh : hs.length = 2) (lmi : mis.length = 2) (ls : ss.length = 2)
    (f1 : 1 ≤ fs.length) (f6 : fs.length ≤ 6)
    (dy : ∀ c ∈ ys, c.isDigit = true) (dm : ∀ c ∈ mos, c.isDigit = true)
    (dd : ∀ c ∈ das, c.isDigit = true) (dh : ∀ c ∈ hs, c.isDigit = true)
    (dmi : ∀ c ∈ mis, c.isDigit = true) (dss : ∀ c ∈ ss, c.isDigit = true)
    (df : ∀ c ∈ fs, c.isDigit = true) :
    strptime5424Core (ys ++ '-' :: (mos ++ '-' :: (das ++ 'T' :: (hs ++ ':'
        :: (mis ++ ':' :: (ss ++ '.' :: (fs ++ ['Z'])))))))
      = if 1 ≤ natOfDigits ys ∧ 1 ≤ natOfDigits mos ∧ natOfDigits mos ≤ 12
            ∧ 1 ≤ natOfDigits das
            ∧ natOfDigits das ≤ daysInMonth (natOfDigits ys) (natOfDigits mos)
            ∧ natOfDigits hs ≤ 23 ∧ natOfDigits mis ≤ 59 ∧ natOfDigits ss ≤ 59 then
          some ⟨natOfDigits ys, natOfDigits mos, natOfDigits das, natOfDigits hs,
            natOfDigits mis, natOfDigits ss, natOfDigits fs * 10 ^ (6 - fs.length)⟩
        else none := by
  have e1 := sdate5424_eval (hs ++ ':' :: (mis ++ ':' :: (ss ++ '.' :: (fs ++ ['Z']))))
    ly lm ld dy dm dd
  have e2 := stime_eval ('.' :: (fs ++ ['Z'])) lh lmi ls dh dmi dss
  obtain ⟨htw, hdw⟩ := span_exact [] df (show Char.isDigit 'Z' = false by decide)
  simp [strptime5424Core, e1, e2, chompChar, htw, hdw, f1, f6]

theorem specEncoded5424_eval {ys mos das hs mis ss fs : List Char}
    (ly : ys.length = 4) (lm : mos.length = 2) (ld : das.length = 2)
    (lh : hs.length = 2) (lmi : mis.length = 2) (ls : ss.length = 2)
    (f1 : 1 ≤ fs.length) (f6 : fs.length ≤ 6)
    (dy : ∀ c ∈ ys, c.isDigit = true) (dm : ∀ c ∈ mos, c.isDigit = true)
    (dd : ∀ c ∈ das, c.isDigit = true) (dh : ∀ c ∈ hs, c.isDigit = true)
    (dmi : ∀ c ∈ mis, c.isDigit = true) (dss : ∀ c ∈ ss, c.isDigit = true)
    (df : ∀ c ∈ fs, c.isDigit = true) :
    specEncoded5424Core (ys ++ '-' :: (mos ++ '-' :: (das ++ 'T' :: (hs ++ ':'
        :: (mis ++ ':' :: (ss ++ '.' :: (fs ++ ['Z'])))))))
      = some ⟨natOfDigits ys, natOfDigits mos, natOfDigits das, natOfDigits hs,
          natOfDigits mis, natOfDigits ss, natOfDigits fs * 10 ^ (6 - fs.length)⟩ := by
  have e1 := date5424_eval (hs ++ ':' :: (mis ++ ':' :: (ss ++ '.' :: (fs ++ ['Z']))))
    ly lm ld dy dm dd
  have e2 := hms_eval ('.' :: (fs ++ ['Z'])) lh lmi ls dh dmi dss
  have e3 := frac5424_eval [] f1 f6 df
  simp [specEncoded5424Core, e1, e2, e3, chompChar]

/-- When `strptime` succeeds on a timestamp captured by the RFC 5424
matcher, the parsed instant is exactly the instant the substring encodes
per the declared layout. -/
theorem strptime5424_spec_agree {x ts r : List Char} {dt : DateTime}
    (hm : ts5424 x = some (ts, r)) (hp : strptime5424Core ts = some dt) :
    specEncoded5424Core ts = some dt := by
  obtain ⟨ys, mos, das, hs, mis, ss, fs, hts, _, ly, lm, ld, lh, lmi, ls, f1,
    f6, dy, dm, dd, dh, dmi, dss, df⟩ := ts5424_some hm
  subst hts
  simp only [List.append_assoc, List.cons_append] at hp ⊢
  rw [strptime5424Core_eval ly lm ld lh lmi ls f1 f6 dy dm dd dh dmi dss df] at hp
  split at hp
  · injection hp with hp'
    rw [specEncoded5424_eval ly lm ld lh lmi ls f1 f6 dy dm dd dh dmi dss df, hp']
  · exact absurd hp (by simp)

theorem strptime3164Core_eval {c0 c1 c2 : Char} {ds hs mis ss : List Char}
    {mo : Nat} (hmo : monthAbbr c0 c1 c2 = some mo)
    (d1 : 1 ≤ ds.length) (d2 : ds.length ≤ 2) (dds : ∀ c ∈ ds, c.isDigit = true)
    (lh : hs.length = 2) (lmi : mis.length = 2) (ls : ss.length = 2)
    (dh : ∀ c ∈ hs, c.isDigit = true) (dmi : ∀ c ∈ mis, c.isDigit = true)
    (dss : ∀ c ∈ ss, c.isDigit = true) :
    strptime3164Core (c0 :: c1 :: c2 :: ' ' :: (ds ++ ' ' :: (hs ++ ':'
        :: (mis ++ ':' :: ss))))
      = if 1 ≤ natOfDigits ds ∧ natOfDigits ds ≤ daysInMonth 1900 mo
            ∧ natOfDigits hs ≤ 23 ∧ natOfDigits mis ≤ 59 ∧ natOfDigits ss ≤ 59 then
          some ⟨1900, mo, natOfDigits ds, natOfDigits hs, natOfDigits mis,
            natOfDigits ss, 0⟩
        else none := by
  have e2 := stime_eval [] lh lmi ls dh dmi dss
  rw [List.append_nil] at e2
  have hsp : Char.isDigit ' ' = false := by decide
  rcases list_len1or2 d1 d2 with ⟨a, rfl⟩ | ⟨a, b, rfl⟩
  · have ha : a.isDigit = true := dds a (by simp)
    simp [strptime3164Core, hmo, chompChar, num2, ha, hsp, e2, natOfDigits_one]
  · have ha : a.isDigit = true := dds a (by simp)
    have hb : b.isDigit = true := dds b (by simp)
    simp [strptime3164Core, hmo, chompChar, num2, ha, hb, e2, natOfDigits_two]

theorem specFields3164_eval {c0 c1 c2 : Char} {ds hs mis ss : List Char}
    {mo : Nat} (hmo : monthAbbr c0 c1 c2 = some mo)
    (d1 : 1 ≤ ds.length) (d2 : ds.length ≤ 2) (dds : ∀ c ∈ ds, c.isDigit = true)
    (lh : hs.length = 2) (lmi : mis.length = 2) (ls : ss.length = 2)
    (dh : ∀ c ∈ hs, c.isDigit = true) (dmi : ∀ c ∈ mis, c.isDigit = true)
    (dss : ∀ c ∈ ss, c.isDigit = true) :
    specFields3164Core (c0 :: c1 :: c2 :: ' ' :: (ds ++ ' ' :: (hs ++ ':'
        :: (mis ++ ':' :: ss))))
      = some (mo, natOfDigits ds, natOfDigits hs, natOfDigits mis,
          natOfDigits ss) := by
  obtain ⟨htw, hdw⟩ := span_exact (hs ++ ':' :: (mis ++ ':' :: ss)) dds
    (show Char.isDigit ' ' = false by decide)
  have e2 := hms_eval [] lh lmi ls dh dmi dss
  rw [List.append_nil] at e2
  simp [specFields3164Core, hmo, htw, hdw, d1, d2, e2]

/-- When `strptime` succeeds on a timestamp captured by the RFC 3164
matcher, the parsed instant's month, day, hour, minute and second are
exactly the fields written in the substring. -/
theorem strptime3164_fields_agree {x ts r : List Char} {dt : DateTime}
    (hm : ts3164 x = some (ts, r)) (hp : strptime3164Core ts = some dt) :
    specFields3164Core ts
      = some (dt.month, dt.day, dt.hour, dt.minute, dt.second) := by
  obtain ⟨c0, c1, c2, ds, hs, mis, ss, r2, _, hts, _, hw0, hw1, hw2, d1, d2,
    dds, lh, lmi, ls, dh, dmi, dss⟩ := ts3164_some hm
  subst hts
  simp only [List.append_assoc, List.cons_append] at hp ⊢
  rcases hmo : monthAbbr c0 c1 c2 with _ | mo
  · exfalso
    rw [strptime3164Core] at hp
    rw [hmo] at hp
    exact absurd hp (by simp)
  · rw [strptime3164Core_eval hmo d1 d2 dds lh lmi ls dh dmi dss] at hp
    split at hp
    · injection hp with hp'
      rw [specFields3164_eval hmo d1 d2 dds lh lmi ls dh dmi dss, ← hp']
    · exact absurd hp (by simp)

/-- Every instant `strptime("%b %d %H:%M:%S")` produces carries the
default year 1900. -/
theorem strptime3164Core_year {cs : List Char} {dt : DateTime}
    (h : strptime3164Core cs = some dt) : dt.year = 1900 := by
  rcases cs with _ | ⟨a, _ | ⟨b, _ | ⟨c, r⟩⟩⟩
  · exact absurd h (by simp [strptime3164Core])
  · exact absurd h (by simp [strptime3164Core])
  · exact absurd h (by simp [strptime3164Core])
  · rw [strptime3164Core] at h
    rcases hmo : monthAbbr a b c with _ | mo <;> rw [hmo] at h
    · exact absurd h (by simp)
    · simp only [Option.bind_eq_bind, Option.bind_eq_some] at h
      obtain ⟨r1, _, h⟩ := h
      obtain ⟨⟨da, r2⟩, _, h⟩ := h
      obtain ⟨r3, _, h⟩ := h
      obtain ⟨⟨ho, mi, se, r4⟩, _, h⟩ := h
      split at h
      · injection h with h'
        rw [← h']
      · exact absurd h (by simp)

/-! ### Behaviour of the detector -/

theorem detect_eq_5424 {line : String} {ts : List Char}
    (h : m5424 line.data = some ts) :
    detect_syslog_format line = (rfc5424Name, some ⟨ts⟩, strptime5424 ⟨ts⟩) := by
  rw [detect_syslog_format, h]

theorem detect_eq_3164 {line : String} {ts : List Char}
    (h : m3164 line.data = some ts) :
    detect_syslog_format line = (rfc3164Name, some ⟨ts⟩, strptime3164 ⟨ts⟩) := by
  rw [detect_syslog_format, m3164_m5424_none h, h]

theorem detect_eq_unknown {line : String} (h5 : m5424 line.data = none)
    (h3 : m3164 line.data = none) :
    detect_syslog_format line = (unknownName, none, none) := by
  rw [detect_syslog_format, h5, h3]

/-! ### The analyzer and the CLI -/

/-- A raw line with only its trailing newline removed — the
specification's description of the per-line preprocessing ("each line
stripped of its trailing newline before classification").  Spec side of
claim C7; the code applies Python `str.strip()` instead. -/
def dropNewline (s : String) : String :=
  ⟨if s.data.getLast? = some '\n' then s.data.dropLast else s.data⟩

/-- The first-line-only analyzer exactly as claim C7 words it: skip lines
that are empty once the trailing newline is removed, classify the first
remaining line with only its newline stripped, then stop. -/
def claimedFirstLineOnly : List String → List (String × Option String × Option DateTime)
  | [] => []
  | l :: ls =>
      if dropNewline l ≠ "" then [detect_syslog_format (dropNewline l)]
      else claimedFirstLineOnly ls

theorem analyze_first_nonblank (lines : List String) :
    analyze_syslog_file lines
      = match lines.dropWhile (fun l => pyStrip l == "") with
        | [] => []
        | l :: _ => [detect_syslog_format (pyStrip l)] := by
  induction lines with
  | nil => rfl
  | cons l ls ih =>
      rw [analyze_syslog_file, List.dropWhile_cons]
      by_cases h : pyStrip l = ""
      · simp only [h, if_neg (by simp : ¬("" : String) ≠ ""), beq_self_eq_true,
          if_true]
        exact ih
      · simp only [if_pos h, beq_iff_eq, h, if_false]

theorem mainCli_usage (argv : List String)
    (fileSystem : String → Except String (List String))
    (h : argv.length ≠ 2) :
    mainCli argv fileSystem = ⟨1, [usageMsg], [], false⟩ := by
  rw [mainCli, if_pos h]

theorem mainCli_read_error (prog path e : String)
    (fileSystem : String → Except String (List String))
    (h : fileSystem path = Except.error e) :
    mainCli [prog, path] fileSystem
      = ⟨0, ["Error reading file: " ++ e], [], true⟩ := by
  rw [mainCli, if_neg (by simp)]
  simp [h]

/-! ### The claims -/

/-- C1: for every line matching the RFC 5424 structural grammar with a
syntactically valid timestamp, `detect_syslog_format` returns the format
name "RFC 5424 (Structured Data)", the raw timestamp substring, and a
parsed instant equal to the UTC instant encoded by that substring; in
particular the scenario-2 line yields raw timestamp
"2025-04-02T10:15:30.123456Z" and instant 2025-04-02 10:15:30.123456 UTC. -/
theorem C1_rfc5424_valid_timestamp :
    (∀ (line : String) (ts : List Char) (dt : DateTime),
        m5424 line.data = some ts → strptime5424 ⟨ts⟩ = some dt →
        detect_syslog_format line = (rfc5424Name, some ⟨ts⟩, some dt)
          ∧ specEncodedInstant5424 ⟨ts⟩ = some dt)
    ∧ detect_syslog_format
        "<34>1 2025-04-02T10:15:30.123456Z myhost myapp 1234 - - message body"
      = (rfc5424Name, some "2025-04-02T10:15:30.123456Z",
          some ⟨2025, 4, 2, 10, 15, 30, 123456⟩) := by
  constructor
  · intro line ts dt hm hp
    obtain ⟨x, r, hx⟩ := m5424_ts_shape hm
    refine ⟨?_, strptime5424_spec_agree hx hp⟩
    rw [detect_eq_5424 hm]
    rw [show strptime5424 ⟨ts⟩ = some dt from hp]
  · decide

theorem C1_witness :
    detect_syslog_format
        "<34>1 2025-04-02T10:15:30.123456Z myhost myapp 1234 - - message body"
      = (rfc5424Name, some ⟨"2025-04-02T10:15:30.123456Z".data⟩,
          some ⟨2025, 4, 2, 10, 15, 30, 123456⟩)
    ∧ specEncodedInstant5424 ⟨"2025-04-02T10:15:30.123456Z".data⟩
      = some ⟨2025, 4, 2, 10, 15, 30, 123456⟩ :=
  C1_rfc5424_valid_timestamp.1 _ "2025-04-02T10:15:30.123456Z".data
    ⟨2025, 4, 2, 10, 15, 30, 123456⟩ (by decide) (by decide)

/-- C2: for every line matching the RFC 3164 grammar,
`detect_syslog_format` returns "RFC 3164 (Traditional Format)" and the raw
timestamp substring, and whenever the timestamp parses, the instant's
month, day, hour, minute and second equal the fields written in the
substring; in particular the scenario-1 line yields raw timestamp
"Oct 11 22:14:15". -/
theorem C2_rfc3164_detect_and_fields :
    (∀ (line : String) (ts : List Char),
        m3164 line.data = some ts →
        detect_syslog_format line = (rfc3164Name, some ⟨ts⟩, strptime3164 ⟨ts⟩)
          ∧ ∀ dt : DateTime, strptime3164 ⟨ts⟩ = some dt →
              specFields3164 ⟨ts⟩
                = some (dt.month, dt.day, dt.hour, dt.minute, dt.second))
    ∧ detect_syslog_format "<34>Oct 11 22:14:15 mymachine su: failure"
      = (rfc3164Name, some "Oct 11 22:14:15",
          some ⟨1900, 10, 11, 22, 14, 15, 0⟩) := by
  constructor
  · intro line ts hm
    refine ⟨detect_eq_3164 hm, ?_⟩
    intro dt hp
    obtain ⟨x, r, hx⟩ := m3164_ts_shape hm
    exact strptime3164_fields_agree hx hp
  · decide

theorem C2_witness :
    detect_syslog_format "<34>Oct 11 22:14:15 mymachine su: failure"
      = (rfc3164Name, some ⟨"Oct 11 22:14:15".data⟩,
          strptime3164 ⟨"Oct 11 22:14:15".data⟩)
    ∧ specFields3164 ⟨"Oct 11 22:14:15".data⟩ = some (10, 11, 22, 14, 15) := by
  have h := C2_rfc3164_detect_and_fields.1
    "<34>Oct 11 22:14:15 mymachine su: failure" "Oct 11 22:14:15".data
    (by decide)
  exact ⟨h.1, h.2 ⟨1900, 10, 11, 22, 14, 15, 0⟩ (by decide)⟩

/-- C3: detection is first-match-wins with RFC 5424 checked first: any
line on which the RFC 5424 matcher succeeds gets the RFC 5424 result
(so on a line matching both patterns the RFC 5424 result is returned),
and an RFC 3164 verdict is only ever produced when the RFC 5424 matcher
failed. -/
theorem C3_first_match_wins :
    (∀ (line : String) (ts : List Char), m5424 line.data = some ts →
        detect_syslog_format line
          = (rfc5424Name, some ⟨ts⟩, strptime5424 ⟨ts⟩))
    ∧ ∀ line : String, (detect_syslog_format line).1 = rfc3164Name →
        m5424 line.data = none := by
  constructor
  · intro line ts hm
    exact detect_eq_5424 hm
  · intro line h
    rcases hm : m5424 line.data with _ | ts
    · rfl
    · rw [detect_eq_5424 hm] at h
      have h' : rfc5424Name = rfc3164Name := h
      exact absurd h' (by decide)

theorem C3_witness :
    detect_syslog_format
        "<34>1 2025-04-02T10:15:30.123456Z myhost myapp 1234 - - message body"
      = (rfc5424Name, some ⟨"2025-04-02T10:15:30.123456Z".data⟩,
          strptime5424 ⟨"2025-04-02T10:15:30.123456Z".data⟩)
    ∧ m5424 ("<34>Oct 11 22:14:15 mymachine su: failure").data = none :=
  ⟨C3_first_match_wins.1 _ "2025-04-02T10:15:30.123456Z".data (by decide),
   C3_first_match_wins.2 "<34>Oct 11 22:14:15 mymachine su: failure" (by decide)⟩

/-- C4: a line matching neither grammar yields the "Unknown Format"
sentinel with no timestamp substring and no parsed instant (and
`detect_syslog_format` is a total function, so no input can raise); in
particular "hello world" yields the unknown sentinel. -/
theorem C4_unknown_sentinel :
    (∀ line : String, m5424 line.data = none → m3164 line.data = none →
        detect_syslog_format line = (unknownName, none, none))
    ∧ detect_syslog_format "hello world" = (unknownName, none, none) := by
  exact ⟨fun line h5 h3 => detect_eq_unknown h5 h3, by decide⟩

theorem C4_witness :
    detect_syslog_format "hello world" = (unknownName, none, none) :=
  C4_unknown_sentinel.1 "hello world" (by decide) (by decide)

/-- C5 counterexample: the claim asserts that an otherwise conforming
RFC 5424 line whose timestamp has no fractional-seconds part is still
detected as RFC 5424; on this concrete line the code returns the unknown
sentinel instead (the pattern's fraction `\.\d{1,6}` is mandatory). -/
theorem C5_counterexample :
    (detect_syslog_format
        "<34>1 2025-04-02T10:15:30Z myhost myapp 1234 - - message body").1
      ≠ rfc5424Name
    ∧ detect_syslog_format
        "<34>1 2025-04-02T10:15:30Z myhost myapp 1234 - - message body"
      = (unknownName, none, none) := by
  decide

/-- C5 amended: the RFC 5424 timestamp layout requires a fractional-second
part of 1 to 6 digits — every captured RFC 5424 timestamp contains a dot,
a one-digit and a six-digit fraction are both accepted, and the same line
without a fraction is not detected as RFC 5424. -/
theorem C5_fraction_mandatory :
    (∀ (line : String) (ts : List Char), m5424 line.data = some ts →
        '.' ∈ ts)
    ∧ (detect_syslog_format
        "<34>1 2025-04-02T10:15:30.1Z myhost myapp 1234 - - message body").1
      = rfc5424Name
    ∧ (detect_syslog_format
        "<34>1 2025-04-02T10:15:30.123456Z myhost myapp 1234 - - message body").1
      = rfc5424Name
    ∧ (detect_syslog_format
        "<34>1 2025-04-02T10:15:30Z myhost myapp 1234 - - message body").1
      = unknownName := by
  refine ⟨?_, by decide, by decide, by decide⟩
  intro line ts hm
  obtain ⟨x, r, hx⟩ := m5424_ts_shape hm
  obtain ⟨ys, mos, das, hs, mis, ss, fs, hts, _⟩ := ts5424_some hx
  subst hts
  simp

theorem C5_witness : '.' ∈ "2025-04-02T10:15:30.123456Z".data :=
  C5_fraction_mandatory.1
    "<34>1 2025-04-02T10:15:30.123456Z myhost myapp 1234 - - message body"
    "2025-04-02T10:15:30.123456Z".data (by decide)

/-- C6: when a grammar matches but the captured timestamp does not parse
under the declared layout, the result still carries the detected format
name and the raw substring, with the parsed instant absent (the
`ValueError` is caught, so nothing escapes — `detect_syslog_format` is a
total function returning this triple). -/
theorem C6_parse_failure_keeps_format :
    (∀ (line : String) (ts : List Char), m5424 line.data = some ts →
        strptime5424 ⟨ts⟩ = none →
        detect_syslog_format line = (rfc5424Name, some ⟨ts⟩, none))
    ∧ ∀ (line : String) (ts : List Char), m3164 line.data = some ts →
        strptime3164 ⟨ts⟩ = none →
        detect_syslog_format line = (rfc3164Name, some ⟨ts⟩, none) := by
  constructor
  · intro line ts hm hp
    rw [detect_eq_5424 hm]
    rw [show strptime5424 ⟨ts⟩ = none from hp]
  · intro line ts hm hp
    rw [detect_eq_3164 hm]
    rw [show strptime3164 ⟨ts⟩ = none from hp]

theorem C6_witness :
    detect_syslog_format "2025-13-02T10:15:30.1Z host app 1 - msg"
      = (rfc5424Name, some ⟨"2025-13-02T10:15:30.1Z".data⟩, none)
    ∧ detect_syslog_format "<34>Feb 30 12:00:00 host msg"
      = (rfc3164Name, some ⟨"Feb 30 12:00:00".data⟩, none) :=
  ⟨C6_parse_failure_keeps_format.1 _ "2025-13-02T10:15:30.1Z".data
      (by decide) (by decide),
   C6_parse_failure_keeps_format.2 _ "Feb 30 12:00:00".data
      (by decide) (by decide)⟩

/-- C7 counterexample: the claim says each line is stripped of its
trailing newline before classification; the code applies `str.strip()`,
which also removes leading whitespace.  On a line with leading spaces the
analyzer detects RFC 3164, while classifying the merely newline-stripped
text yields the unknown sentinel — so the claim's description of the
produced result is false at this input. -/
theorem C7_counterexample :
    analyze_syslog_file ["  <34>Oct 11 22:14:15 mymachine su: failure\n"]
      = [(rfc3164Name, some "Oct 11 22:14:15",
          some ⟨1900, 10, 11, 22, 14, 15, 0⟩)]
    ∧ claimedFirstLineOnly ["  <34>Oct 11 22:14:15 mymachine su: failure\n"]
      = [(unknownName, none, none)]
    ∧ analyze_syslog_file ["  <34>Oct 11 22:14:15 mymachine su: failure\n"]
      ≠ claimedFirstLineOnly ["  <34>Oct 11 22:14:15 mymachine su: failure\n"] := by
  refine ⟨by decide, by decide, by decide⟩

/-- C7 amended: the analyzer skips lines that are empty after stripping
leading and trailing whitespace (Python `str.strip()`), classifies the
stripped text of the first remaining line, and stops; an empty file
produces zero results. -/
theorem C7_first_line_only (lines : List String) :
    analyze_syslog_file lines
      = match lines.dropWhile (fun l => pyStrip l == "") with
        | [] => []
        | l :: _ => [detect_syslog_format (pyStrip l)] :=
  analyze_first_nonblank lines

/-- C8 counterexample: the claim says the usage message goes to the error
stream; with a wrong argument count the code prints it with a bare
`print`, so the error stream stays empty and the message appears on
standard output (exit code 1 and the absence of file I/O do hold). -/
theorem C8_counterexample :
    (mainCli ["prog", "a", "b"] (fun _ => Except.error "e")).stderrLines = []
    ∧ mainCli ["prog", "a", "b"] (fun _ => Except.error "e")
      = ⟨1, [usageMsg], [], false⟩ := by
  exact ⟨rfl, rfl⟩

/-- C8 amended: with any argument count other than exactly one positional
argument the CLI exits with code 1, prints the usage message to standard
output (not the error stream, which stays empty), and attempts no file
I/O. -/
theorem C8_wrong_arg_count (argv : List String)
    (fileSystem : String → Except String (List String))
    (h : argv.length ≠ 2) :
    mainCli argv fileSystem = ⟨1, [usageMsg], [], false⟩ :=
  mainCli_usage argv fileSystem h

theorem C8_witness :
    mainCli ["prog", "a", "b"] (fun _ => Except.error "e")
      = ⟨1, [usageMsg], [], false⟩ :=
  C8_wrong_arg_count ["prog", "a", "b"] (fun _ => Except.error "e") (by decide)

/-- C9 counterexample: the claim says the CLI exits with code 1 when the
file cannot be read; the code catches the exception inside
`analyze_syslog_file`, prints the message and returns normally, so the
process exits with code 0. -/
theorem C9_counterexample :
    (mainCli ["prog", "syslog.txt"]
        (fun _ => Except.error "No such file or directory")).exitCode = 0
    ∧ (mainCli ["prog", "syslog.txt"]
        (fun _ => Except.error "No such file or directory")).stdoutLines
      = ["Error reading file: No such file or directory"] := by
  exact ⟨rfl, rfl⟩

/-- C9 amended: when the line source cannot be opened or read, the
failure is surfaced exactly once as a terminal failure of the whole
analysis — a single `Error reading file: ...` line carrying the cause —
after which the CLI exits with code 0 (not 1), and nothing is written to
the error stream. -/
theorem C9_read_error_surfaced_once (prog path e : String)
    (fileSystem : String → Except String (List String))
    (h : fileSystem path = Except.error e) :
    mainCli [prog, path] fileSystem
      = ⟨0, ["Error reading file: " ++ e], [], true⟩ :=
  mainCli_read_error prog path e fileSystem h

theorem C9_witness :
    mainCli ["prog", "syslog.txt"]
        (fun _ => Except.error "No such file or directory")
      = ⟨0, ["Error reading file: No such file or directory"], [], true⟩ :=
  C9_read_error_surfaced_once "prog" "syslog.txt" "No such file or directory"
    (fun _ => Except.error "No such file or directory") rfl

/-- C10: the assumed year for year-less RFC 3164 timestamps is the fixed
`strptime` default 1900 — every successfully parsed RFC 3164 timestamp
carries year 1900 — and consequently a grammar-valid "Feb 29" line is
reported as RFC 3164 with its raw substring but with no parsed instant,
1900 not being a leap year. -/
theorem C10_assumed_year_1900 :
    (∀ (line : String) (ts : List Char) (dt : DateTime),
        m3164 line.data = some ts → strptime3164 ⟨ts⟩ = some dt →
        dt.year = 1900)
    ∧ detect_syslog_format "<34>Feb 29 12:00:00 mymachine su: failure"
      = (rfc3164Name, some "Feb 29 12:00:00", none) := by
  constructor
  · intro line ts dt _ hp
    exact strptime3164Core_year hp
  · decide

theorem C10_witness :
    (⟨1900, 10, 11, 22, 14, 15, 0⟩ : DateTime).year = 1900 :=
  C10_assumed_year_1900.1 "<34>Oct 11 22:14:15 mymachine su: failure"
    "Oct 11 22:14:15".data ⟨1900, 10, 11, 22, 14, 15, 0⟩ (by decide) (by decide)

end LogOps
